import Mathlib

/-!
Verification of the nano-opencode agent (src/implementations/rust/src/main.rs).

The development shallowly embeds the program:

* JSON values (`serde_json::Value`) become the inductive `JVal`; the
  non-panicking index operator `value["key"]` (which yields `Null` on a
  missing key or a non-object) becomes `JVal.get`, and `as_str` becomes
  `JVal.asStr`.
* Rust's `str::contains` and `str::replacen(old, new, 1)` become
  `strContains` and `replacen1`, built from character-list primitives
  `isPre`, `containsSub` and `replFirst` (valid UTF-8 byte-substring
  matching coincides with character-list matching).
* The ambient effects (filesystem, shell, directory listing) become an
  explicit oracle state `World`.  A read failure is `none`; `readErr`,
  `writeErr`, `bashErr` and `dirErr` supply the textual cause that Rust
  obtains from the `io::Error`.  The ghost field `calls` records every
  invocation of the tool executor, so "no tool was invoked" is stated as
  this trace being unchanged.
* The tool executor `run` is a total function `World → String → JVal →
  String × World`, translated branch for branch from the Rust `run`.
* The model client is external; it is modelled as a script: a list of
  `Except String Response` values, one per request, where `.error`
  models a transport or decode failure (the `Err` of Rust `call`).
  The agent loop `agentLoop` recurses along the script; `scriptEnded`
  marks the point where the script offers no further answer (the Rust
  loop would issue another request there), and `panicked` marks the
  `unwrap` panic the Rust loop performs on a `tool_use` block lacking
  a `name` or `input` field.
-/

namespace NanoOpencode

/-- JSON values, mirroring `serde_json::Value` (numbers collapsed to `Int`,
irrelevant to this program, which only reads string fields). -/
inductive JVal where
  | null
  | bool (b : Bool)
  | num (n : Int)
  | str (s : String)
  | arr (elems : List JVal)
  | obj (fields : List (String × JVal))

/-- `value["key"]` of serde_json: the value bound to `key` when `value` is an
object containing it, `Null` otherwise (never a panic). -/
def JVal.get : JVal → String → JVal
  | .obj fields, k =>
    match fields.find? (fun f => f.1 == k) with
    | some f => f.2
    | none => .null
  | _, _ => .null

/-- `Value::as_str`: `some` exactly on JSON strings. -/
def JVal.asStr : JVal → Option String
  | .str s => some s
  | _ => none

/-- Character-list prefix test (the matching primitive under Rust
`str::contains` / `str::replacen`). -/
def isPre : List Char → List Char → Bool
  | [], _ => true
  | _ :: _, [] => false
  | a :: as, b :: bs => a == b && isPre as bs

/-- Substring occurrence test: `pat` matches at some position of the list.
An empty pattern matches everywhere, as in Rust. -/
def containsSub (pat : List Char) : List Char → Bool
  | [] => isPre pat []
  | c :: rest => isPre pat (c :: rest) || containsSub pat rest

/-- Replace the first occurrence of `pat` (Rust `replacen(pat, rep, 1)`):
at the first position where `pat` is a prefix, substitute `rep`; if `pat`
never matches, return the list unchanged. -/
def replFirst (pat rep : List Char) : List Char → List Char
  | [] => if isPre pat [] then rep ++ List.drop pat.length [] else []
  | c :: rest =>
    if isPre pat (c :: rest) then rep ++ List.drop pat.length (c :: rest)
    else c :: replFirst pat rep rest

/-- Rust `s.contains(pat)` on strings. -/
def strContains (s pat : String) : Bool := containsSub pat.toList s.toList

/-- Rust `s.replacen(pat, rep, 1)` on strings. -/
def replacen1 (s pat rep : String) : String := ⟨replFirst pat.toList rep.toList s.toList⟩

/-- Rust `s.chars().take(n).collect()`. -/
def strTake (s : String) (n : Nat) : String := ⟨s.toList.take n⟩

/-- Oracle state for the ambient effects of the tool executor.  `files` maps a
path to its readable content (`none` = the read fails); `writeOk` tells
whether a write to a path succeeds; `bashOut` gives the captured stdout of a
shell command (`none` = spawning fails); `dirs` gives the directory entries
`(name, is_dir)` of a path.  The `…Err` fields supply the textual cause
carried by the corresponding `io::Error`.  `calls` is a ghost trace of every
tool-executor invocation. -/
structure World where
  files : String → Option String
  writeOk : String → Bool
  readErr : String → String
  writeErr : String → String
  bashOut : String → Option String
  bashErr : String → String
  dirs : String → Option (List (String × Bool))
  dirErr : String → String
  calls : List String

/-- Successful `fs::write`: update one path, leave the rest of the world. -/
def World.setFile (w : World) (p c : String) : World :=
  { w with files := fun q => if q == p then some c else w.files q }

/-- Record one tool-executor invocation in the ghost trace. -/
def World.addCall (w : World) (n : String) : World :=
  { w with calls := w.calls ++ [n] }

@[simp] theorem World.addCall_files (w : World) (n : String) :
    (w.addCall n).files = w.files := rfl

@[simp] theorem World.addCall_writeOk (w : World) (n : String) :
    (w.addCall n).writeOk = w.writeOk := rfl

@[simp] theorem World.addCall_readErr (w : World) (n : String) :
    (w.addCall n).readErr = w.readErr := rfl

@[simp] theorem World.addCall_writeErr (w : World) (n : String) :
    (w.addCall n).writeErr = w.writeErr := rfl

@[simp] theorem World.addCall_bashOut (w : World) (n : String) :
    (w.addCall n).bashOut = w.bashOut := rfl

@[simp] theorem World.addCall_bashErr (w : World) (n : String) :
    (w.addCall n).bashErr = w.bashErr := rfl

@[simp] theorem World.addCall_dirs (w : World) (n : String) :
    (w.addCall n).dirs = w.dirs := rfl

@[simp] theorem World.addCall_dirErr (w : World) (n : String) :
    (w.addCall n).dirErr = w.dirErr := rfl

/-- One line of `list_dir` output: `format!("{} {}", marker, name)` with
marker `d` for directories and `-` otherwise. -/
def fmtEntry (e : String × Bool) : String := (if e.2 then "d " else "- ") ++ e.1

/-- The joined `list_dir` output (entries joined by newline). -/
def fmtEntries (es : List (String × Bool)) : String :=
  String.intercalate "\n" (es.map fmtEntry)

/-- The tool executor `run` of main.rs, branch for branch.  Total: every
failure of the oracle becomes an `Error: …` string, an unknown name becomes
`Unknown tool`.  The returned world records the invocation in the ghost
trace and applies the successful writes. -/
def run (w0 : World) (name : String) (input : JVal) : String × World :=
  let w := w0.addCall name
  if name = "read_file" then
    let path := (input.get "path").asStr.getD "."
    match w.files path with
    | some c => (c, w)
    | none => ("Error: " ++ w.readErr path, w)
  else if name = "write_file" then
    let path := (input.get "path").asStr.getD ""
    let content := (input.get "content").asStr.getD ""
    if w.writeOk path then ("OK", w.setFile path content)
    else ("Error: " ++ w.writeErr path, w)
  else if name = "edit_file" then
    let path := (input.get "path").asStr.getD ""
    match w.files path with
    | some content =>
      let old := (input.get "old_string").asStr.getD ""
      let new := (input.get "new_string").asStr.getD ""
      if strContains content old then
        if w.writeOk path then ("OK", w.setFile path (replacen1 content old new))
        else ("Error: " ++ w.writeErr path, w)
      else ("old_string not found", w)
    | none => ("Error: " ++ w.readErr path, w)
  else if name = "bash" then
    let cmd := (input.get "command").asStr.getD ""
    match w.bashOut cmd with
    | some out => (strTake out 50000, w)
    | none => ("Error: " ++ w.bashErr cmd, w)
  else if name = "list_dir" then
    let path := (input.get "path").asStr.getD "."
    match w.dirs path with
    | some es => (fmtEntries es, w)
    | none => ("Error: " ++ w.dirErr path, w)
  else
    ("Unknown tool", w)

/-- A decoded response content block (struct `Block` of main.rs). -/
structure Block where
  type : String
  id : Option String
  name : Option String
  input : Option JVal
  text : Option String

/-- A decoded model response (struct `Response` of main.rs). -/
structure Response where
  content : List Block
  stop_reason : String

/-- One `tool_result` object of the synthetic user turn
(`json!({"type": "tool_result", "tool_use_id": b.id, "content": r})`). -/
structure ToolResult where
  tool_use_id : Option String
  content : String

/-- The three shapes a message content takes in this program: the initial
prompt string, an assistant block list, or a tool-result bundle. -/
inductive Content where
  | text (s : String)
  | blocks (bs : List Block)
  | results (rs : List ToolResult)

/-- A transcript message (struct `Message` of main.rs). -/
structure Message where
  role : String
  content : Content

/-- Final visible output on `done`: text of every `text` block, in block
order, concatenated (`filter … filter_map … join("")`). -/
def finalText (bs : List Block) : String :=
  String.join ((bs.filter (fun b => b.type == "text")).filterMap (fun b => b.text))

/-- Execute the `tool_use` blocks of one assistant response in block order,
threading the world, producing one `ToolResult` per block with the block's
`id` carried through.  `none` models the panic of `b.name.as_ref().unwrap()`
/ `b.input.as_ref().unwrap()` on a malformed block. -/
def execResults (w : World) : List Block → Option (List ToolResult × World)
  | [] => some ([], w)
  | b :: rest =>
    if b.type == "tool_use" then
      match b.name, b.input with
      | some n, some inp =>
        match run w n inp with
        | (r, w1) =>
          match execResults w1 rest with
          | some (rs, w2) => some (⟨b.id, r⟩ :: rs, w2)
          | none => none
      | _, _ => none
    else execResults w rest

/-- Terminal observations of one agent invocation. -/
inductive Outcome where
  | done (result : String) (transcript : List Message) (w : World)
  | failed (err : String) (transcript : List Message) (w : World)
  | panicked (transcript : List Message) (w : World)
  | scriptEnded (transcript : List Message) (w : World)

/-- The agent loop of main.rs, driven by the scripted model-client outcomes.
Each iteration consumes one script entry (one request): a transport error
terminates in `failed`; otherwise the assistant turn is appended
unconditionally, a non-`tool_use` stop reason terminates in `done` with the
concatenated text, and a `tool_use` stop reason executes the tools and
appends the result bundle as one synthetic user turn before looping. -/
def agentLoop (w : World) (msgs : List Message) :
    List (Except String Response) → Outcome
  | [] => .scriptEnded msgs w
  | .error e :: _ => .failed e msgs w
  | .ok res :: rest =>
    let msgs1 := msgs ++ [⟨"assistant", Content.blocks res.content⟩]
    if res.stop_reason = "tool_use" then
      match execResults w res.content with
      | some (rs, w1) => agentLoop w1 (msgs1 ++ [⟨"user", Content.results rs⟩]) rest
      | none => .panicked msgs1 w
    else
      .done (finalText res.content) msgs1 w

/-- The `agent` function: transcript seeded with the single user prompt. -/
def agent (w : World) (prompt : String) (script : List (Except String Response)) :
    Outcome :=
  agentLoop w [⟨"user", Content.text prompt⟩] script

/-! ### Lemmas about the string primitives -/

theorem isPre_iff (p s : List Char) : isPre p s = true ↔ ∃ t, s = p ++ t := by
  induction p generalizing s with
  | nil => simp [isPre]
  | cons a as ih =>
    cases s with
    | nil => simp [isPre]
    | cons b bs =>
      simp only [isPre, Bool.and_eq_true, beq_iff_eq, ih, List.cons_append,
        List.cons.injEq]
      constructor
      · rintro ⟨rfl, t, rfl⟩; exact ⟨t, rfl, rfl⟩
      · rintro ⟨t, rfl, rfl⟩; exact ⟨rfl, t, rfl⟩

theorem drop_len_append (p t : List Char) : List.drop p.length (p ++ t) = t := by
  induction p with
  | nil => rfl
  | cons a as ih => simp

theorem take_len_append (p t : List Char) : List.take p.length (p ++ t) = p := by
  induction p with
  | nil => rfl
  | cons a as ih => simp

/-- The first-occurrence characterisation of `replFirst`: when `pat` occurs
in `s`, `s` splits as `pre ++ pat ++ post` around the leftmost occurrence
(`pre` minimal), and `replFirst` yields exactly `pre ++ rep ++ post`. -/
theorem replFirst_decomp (pat rep s : List Char)
    (h : containsSub pat s = true) :
    ∃ pre post, s = pre ++ pat ++ post ∧
      replFirst pat rep s = pre ++ rep ++ post ∧
      ∀ pre' post', s = pre' ++ pat ++ post' → pre.length ≤ pre'.length := by
  induction s with
  | nil =>
    have hp : isPre pat [] = true := h
    obtain ⟨t, ht⟩ := (isPre_iff pat []).mp hp
    have hpat : pat = [] := by
      cases pat with
      | nil => rfl
      | cons a as => simp at ht
    subst hpat
    refine ⟨[], [], by simp, ?_, ?_⟩
    · simp [replFirst, isPre]
    · intro pre' post' h'
      simp
  | cons c rest ih =>
    by_cases hp : isPre pat (c :: rest) = true
    · obtain ⟨t, ht⟩ := (isPre_iff pat (c :: rest)).mp hp
      refine ⟨[], t, by simpa using ht, ?_, ?_⟩
      · simp only [replFirst]
        rw [if_pos hp, ht, drop_len_append]
        simp
      · intro pre' post' h'
        simp
    · have hc : containsSub pat rest = true := by
        have h2 := h
        simp only [containsSub, Bool.or_eq_true] at h2
        rcases h2 with h2 | h2
        · exact absurd h2 hp
        · exact h2
      obtain ⟨pre, post, h1, h2, h3⟩ := ih hc
      refine ⟨c :: pre, post, by simp [h1], ?_, ?_⟩
      · simp only [replFirst]
        rw [if_neg hp, h2]
        simp
      · intro pre' post' h'
        cases pre' with
        | nil =>
          exact absurd ((isPre_iff pat (c :: rest)).mpr ⟨post', by simpa using h'⟩) hp
        | cons d pre'' =>
          simp only [List.cons_append, List.cons.injEq] at h'
          simpa using Nat.succ_le_succ (h3 pre'' post' h'.2)

theorem replFirst_nil_pat (rep s : List Char) : replFirst [] rep s = rep ++ s := by
  cases s with
  | nil => rfl
  | cons c rest => rfl

theorem containsSub_nil_pat (s : List Char) : containsSub [] s = true := by
  cases s with
  | nil => rfl
  | cons c rest => rfl

theorem string_append_data (a b : String) : (a ++ b).data = a.data ++ b.data := by
  cases a
  cases b
  rfl

theorem replacen1_empty_pat (s rep : String) : replacen1 s "" rep = rep ++ s := by
  cases s with
  | mk ls =>
    cases rep with
    | mk lr =>
      show String.mk (replFirst [] lr ls) = String.mk lr ++ String.mk ls
      rw [replFirst_nil_pat]
      rfl

theorem strTake_length (s : String) (n : Nat) :
    (strTake s n).length = min n s.length := by
  cases s with
  | mk l =>
    show (List.take n l).length = min n l.length
    simp

/-! ### Claim theorems -/

/-- A concrete oracle state used by the witness theorems. -/
def sampleWorld : World :=
  { files := fun q => if q == "a.txt" then some "say hello, hello" else none,
    writeOk := fun _ => true,
    readErr := fun _ => "io cause",
    writeErr := fun _ => "io cause",
    bashOut := fun c => if c == "echo hi" then some "hi" else none,
    bashErr := fun _ => "io cause",
    dirs := fun q => if q == "." then some [("src", true), ("a.txt", false)] else none,
    dirErr := fun _ => "io cause",
    calls := [] }

/-- C2: when `old_string` occurs in the file content at least once (the
code's own `contains` check) and the write succeeds, `edit_file` writes back
exactly the original content with the leftmost occurrence of `old_string`
replaced by `new_string`: the content splits as `pre ++ old ++ post` with
`pre` minimal among all such splits, the new content is `pre ++ new ++ post`
(so every byte outside the replaced occurrence, including all later
occurrences of `old_string`, is unchanged), and no other file is touched. -/
theorem edit_file_replaces_first_occurrence
    (w : World) (input : JVal) (p old new content : String)
    (hp : (input.get "path").asStr.getD "" = p)
    (ho : (input.get "old_string").asStr.getD "" = old)
    (hn : (input.get "new_string").asStr.getD "" = new)
    (hfile : w.files p = some content)
    (hocc : strContains content old = true)
    (hw : w.writeOk p = true) :
    run w "edit_file" input =
      ("OK", (w.addCall "edit_file").setFile p (replacen1 content old new)) ∧
    ((w.addCall "edit_file").setFile p (replacen1 content old new)).files p
      = some (replacen1 content old new) ∧
    (∀ q, q ≠ p →
      ((w.addCall "edit_file").setFile p (replacen1 content old new)).files q
        = w.files q) ∧
    ∃ pre post : List Char,
      content.data = pre ++ old.data ++ post ∧
      (replacen1 content old new).data = pre ++ new.data ++ post ∧
      ∀ pre' post' : List Char,
        content.data = pre' ++ old.data ++ post' → pre.length ≤ pre'.length := by
  refine ⟨?_, ?_, ?_, ?_⟩
  · simp [run, hp, ho, hn, hfile, hocc, hw]
  · simp [World.setFile]
  · intro q hq
    simp [World.setFile, World.addCall, hq]
  · obtain ⟨pre, post, h1, h2, h3⟩ := replFirst_decomp old.data new.data content.data hocc
    exact ⟨pre, post, h1, h2, h3⟩

/-- C2 witness at a concrete input: editing `"say hello, hello"` with
`old_string = "hello"`. -/
theorem edit_file_replaces_first_occurrence_witness :
    (sampleWorld.files "a.txt" = some "say hello, hello" ∧
     strContains "say hello, hello" "hello" = true ∧
     sampleWorld.writeOk "a.txt" = true) ∧
    (run sampleWorld "edit_file"
        (JVal.obj [("path", JVal.str "a.txt"), ("old_string", JVal.str "hello"),
                   ("new_string", JVal.str "bye")]) =
      ("OK", (sampleWorld.addCall "edit_file").setFile "a.txt"
        (replacen1 "say hello, hello" "hello" "bye")) ∧
     ((sampleWorld.addCall "edit_file").setFile "a.txt"
        (replacen1 "say hello, hello" "hello" "bye")).files "a.txt"
      = some (replacen1 "say hello, hello" "hello" "bye") ∧
     (∀ q, q ≠ "a.txt" →
       ((sampleWorld.addCall "edit_file").setFile "a.txt"
          (replacen1 "say hello, hello" "hello" "bye")).files q
         = sampleWorld.files q) ∧
     ∃ pre post : List Char,
       ("say hello, hello" : String).data
         = pre ++ ("hello" : String).data ++ post ∧
       (replacen1 "say hello, hello" "hello" "bye").data
         = pre ++ ("bye" : String).data ++ post ∧
       ∀ pre' post' : List Char,
         ("say hello, hello" : String).data
           = pre' ++ ("hello" : String).data ++ post' →
         pre.length ≤ pre'.length) :=
  ⟨⟨by decide, by decide, rfl⟩,
   edit_file_replaces_first_occurrence sampleWorld
     (JVal.obj [("path", JVal.str "a.txt"), ("old_string", JVal.str "hello"),
                ("new_string", JVal.str "bye")])
     "a.txt" "hello" "bye" "say hello, hello"
     (by decide) (by decide) (by decide) (by decide) (by decide) rfl⟩

/-- C3: on a readable file whose content does not contain `old_string`,
`edit_file` performs no write at all (the whole file map of the world is
unchanged) and returns the designated `old_string not found` marker, which
is not of the `Error: …` shape used for I/O failures. -/
theorem edit_file_not_found_marker
    (w : World) (input : JVal) (p old content : String)
    (hp : (input.get "path").asStr.getD "" = p)
    (ho : (input.get "old_string").asStr.getD "" = old)
    (hfile : w.files p = some content)
    (hnot : strContains content old = false) :
    run w "edit_file" input = ("old_string not found", w.addCall "edit_file") ∧
    (w.addCall "edit_file").files = w.files ∧
    ∀ m : String, ("old_string not found" : String) ≠ "Error: " ++ m := by
  refine ⟨?_, rfl, ?_⟩
  · simp [run, hp, ho, hfile, hnot]
  · intro m hm
    have h2 : ("old_string not found" : String).data
        = ("Error: " : String).data ++ m.data := by
      rw [hm, string_append_data]
    have h3 : List.take ("Error: " : String).data.length
        ("old_string not found" : String).data = ("Error: " : String).data := by
      rw [h2, take_len_append]
    exact absurd h3 (by decide)

/-- C3 witness at a concrete input: `old_string = "zzz"` absent from
`"say hello, hello"`. -/
theorem edit_file_not_found_marker_witness :
    (sampleWorld.files "a.txt" = some "say hello, hello" ∧
     strContains "say hello, hello" "zzz" = false) ∧
    (run sampleWorld "edit_file"
        (JVal.obj [("path", JVal.str "a.txt"), ("old_string", JVal.str "zzz"),
                   ("new_string", JVal.str "bye")]) =
      ("old_string not found", sampleWorld.addCall "edit_file") ∧
     (sampleWorld.addCall "edit_file").files = sampleWorld.files ∧
     ∀ m : String, ("old_string not found" : String) ≠ "Error: " ++ m) :=
  ⟨⟨by decide, by decide⟩,
   edit_file_not_found_marker sampleWorld
     (JVal.obj [("path", JVal.str "a.txt"), ("old_string", JVal.str "zzz"),
                ("new_string", JVal.str "bye")])
     "a.txt" "zzz" "say hello, hello"
     (by decide) (by decide) (by decide) (by decide)⟩

/-- C10: with an empty `old_string` (the default when the argument is
missing or not a string) on a readable file, the `contains` check is
vacuously true, so the not-found branch is never taken; the first (empty)
occurrence is at position 0, so `new_string` is prepended to the content,
and a successful write returns the `OK` marker. -/
theorem edit_file_empty_old_inserts
    (w : World) (input : JVal) (p new content : String)
    (hp : (input.get "path").asStr.getD "" = p)
    (ho : (input.get "old_string").asStr.getD "" = "")
    (hn : (input.get "new_string").asStr.getD "" = new)
    (hfile : w.files p = some content)
    (hw : w.writeOk p = true) :
    strContains content "" = true ∧
    replacen1 content "" new = new ++ content ∧
    run w "edit_file" input =
      ("OK", (w.addCall "edit_file").setFile p (new ++ content)) := by
  have hc : strContains content "" = true := containsSub_nil_pat content.data
  have hr := replacen1_empty_pat content new
  refine ⟨hc, hr, ?_⟩
  simp [run, hp, ho, hn, hfile, hc, hw, hr]

/-- C10 witness at a concrete input: `old_string` argument missing
entirely. -/
theorem edit_file_empty_old_inserts_witness :
    (((JVal.obj [("path", JVal.str "a.txt"), ("new_string", JVal.str "X")]).get
        "old_string").asStr.getD "" = "" ∧
     sampleWorld.files "a.txt" = some "say hello, hello") ∧
    (strContains "say hello, hello" "" = true ∧
     replacen1 "say hello, hello" "" "X" = "X" ++ "say hello, hello" ∧
     run sampleWorld "edit_file"
        (JVal.obj [("path", JVal.str "a.txt"), ("new_string", JVal.str "X")]) =
      ("OK", (sampleWorld.addCall "edit_file").setFile "a.txt"
        ("X" ++ "say hello, hello"))) :=
  ⟨⟨by decide, by decide⟩,
   edit_file_empty_old_inserts sampleWorld
     (JVal.obj [("path", JVal.str "a.txt"), ("new_string", JVal.str "X")])
     "a.txt" "X" "say hello, hello"
     (by decide) (by decide) (by decide) (by decide) rfl⟩

/-- C4: on a successfully spawned command, `bash` returns exactly the
captured standard output truncated to the 50,000 character cap: the result
is never longer than the cap, and output at least as long as the cap is cut
to exactly the cap.  The oracle carries only the captured stdout
(`World.bashOut`); standard error and the exit code have no channel into
the result, mirroring the source, which reads only `o.stdout`. -/
theorem bash_truncates_stdout_to_cap
    (w : World) (input : JVal) (cmd out : String)
    (hc : (input.get "command").asStr.getD "" = cmd)
    (hb : w.bashOut cmd = some out) :
    run w "bash" input = (strTake out 50000, w.addCall "bash") ∧
    (strTake out 50000).length ≤ 50000 ∧
    (50000 ≤ out.length → (strTake out 50000).length = 50000) := by
  refine ⟨?_, ?_, ?_⟩
  · simp [run, hc, hb]
  · rw [strTake_length]
    exact min_le_left _ _
  · intro h
    rw [strTake_length]
    exact min_eq_left h

/-- C4 witness at a concrete input. -/
theorem bash_truncates_stdout_to_cap_witness :
    (sampleWorld.bashOut "echo hi" = some "hi") ∧
    (run sampleWorld "bash" (JVal.obj [("command", JVal.str "echo hi")])
        = (strTake "hi" 50000, sampleWorld.addCall "bash") ∧
     (strTake "hi" 50000).length ≤ 50000 ∧
     (50000 ≤ ("hi" : String).length → (strTake "hi" 50000).length = 50000)) :=
  ⟨by decide,
   bash_truncates_stdout_to_cap sampleWorld
     (JVal.obj [("command", JVal.str "echo hi")]) "echo hi" "hi"
     (by decide) (by decide)⟩

/-- C8: when the `path` argument is missing or not a string, `read_file`
falls back to exactly `"."`: it reads `"."` and returns either that content
or the error marker for the failure of that very read — no other
fallback. -/
theorem read_file_missing_path_defaults
    (w : World) (input : JVal)
    (h : (input.get "path").asStr = none) :
    (∀ c, w.files "." = some c →
      run w "read_file" input = (c, w.addCall "read_file")) ∧
    (w.files "." = none →
      run w "read_file" input
        = ("Error: " ++ w.readErr ".", w.addCall "read_file")) := by
  constructor
  · intro c hc
    simp [run, h, hc]
  · intro hc
    simp [run, h, hc]

/-- C8 witness at a concrete input: empty argument object, `"."` not
readable as a file. -/
theorem read_file_missing_path_defaults_witness :
    (((JVal.obj [] : JVal).get "path").asStr = none ∧
     sampleWorld.files "." = none) ∧
    run sampleWorld "read_file" (JVal.obj [])
      = ("Error: " ++ sampleWorld.readErr ".", sampleWorld.addCall "read_file") :=
  ⟨⟨rfl, by decide⟩,
   (read_file_missing_path_defaults sampleWorld (JVal.obj []) rfl).2 (by decide)⟩

/-- C9: the tool executor is total and never propagates a failure: for every
tool name, every JSON argument value and every oracle state it returns a
result string, and that string is one of the documented outcomes — the fixed
`Unknown tool` string, a success marker, the not-found marker, an
`Error: …` text wrapping the underlying cause, a file content, a truncated
stdout, or a directory listing. -/
theorem run_output_characterization (w : World) (name : String) (input : JVal) :
    ∃ s w', run w name input = (s, w') ∧
      (s = "Unknown tool" ∨ s = "OK" ∨ s = "old_string not found" ∨
       (∃ m, s = "Error: " ++ m) ∨
       (∃ p c, w.files p = some c ∧ s = c) ∨
       (∃ cmd out, w.bashOut cmd = some out ∧ s = strTake out 50000) ∨
       (∃ p es, w.dirs p = some es ∧ s = fmtEntries es)) := by
  refine ⟨(run w name input).1, (run w name input).2, rfl, ?_⟩
  by_cases h1 : name = "read_file"
  · subst h1
    cases hf : w.files ((input.get "path").asStr.getD ".") with
    | some c =>
      have hs : (run w "read_file" input).1 = c := by simp [run, hf]
      rw [hs]
      exact Or.inr (Or.inr (Or.inr (Or.inr (Or.inl ⟨_, c, hf, rfl⟩))))
    | none =>
      have hs : (run w "read_file" input).1
          = "Error: " ++ w.readErr ((input.get "path").asStr.getD ".") := by
        simp [run, hf]
      rw [hs]
      exact Or.inr (Or.inr (Or.inr (Or.inl ⟨_, rfl⟩)))
  · by_cases h2 : name = "write_file"
    · subst h2
      cases hw : w.writeOk ((input.get "path").asStr.getD "") with
      | true =>
        have hs : (run w "write_file" input).1 = "OK" := by simp [run, hw]
        rw [hs]
        exact Or.inr (Or.inl rfl)
      | false =>
        have hs : (run w "write_file" input).1
            = "Error: " ++ w.writeErr ((input.get "path").asStr.getD "") := by
          simp [run, hw]
        rw [hs]
        exact Or.inr (Or.inr (Or.inr (Or.inl ⟨_, rfl⟩)))
    · by_cases h3 : name = "edit_file"
      · subst h3
        cases hf : w.files ((input.get "path").asStr.getD "") with
        | some content =>
          cases hocc : strContains content ((input.get "old_string").asStr.getD "") with
          | true =>
            cases hw : w.writeOk ((input.get "path").asStr.getD "") with
            | true =>
              have hs : (run w "edit_file" input).1 = "OK" := by
                simp [run, hf, hocc, hw]
              rw [hs]
              exact Or.inr (Or.inl rfl)
            | false =>
              have hs : (run w "edit_file" input).1
                  = "Error: " ++ w.writeErr ((input.get "path").asStr.getD "") := by
                simp [run, hf, hocc, hw]
              rw [hs]
              exact Or.inr (Or.inr (Or.inr (Or.inl ⟨_, rfl⟩)))
          | false =>
            have hs : (run w "edit_file" input).1 = "old_string not found" := by
              simp [run, hf, hocc]
            rw [hs]
            exact Or.inr (Or.inr (Or.inl rfl))
        | none =>
          have hs : (run w "edit_file" input).1
              = "Error: " ++ w.readErr ((input.get "path").asStr.getD "") := by
            simp [run, hf]
          rw [hs]
          exact Or.inr (Or.inr (Or.inr (Or.inl ⟨_, rfl⟩)))
      · by_cases h4 : name = "bash"
        · subst h4
          cases hb : w.bashOut ((input.get "command").asStr.getD "") with
          | some out =>
            have hs : (run w "bash" input).1 = strTake out 50000 := by
              simp [run, hb]
            rw [hs]
            exact Or.inr (Or.inr (Or.inr (Or.inr (Or.inr (Or.inl
              ⟨_, out, hb, rfl⟩)))))
          | none =>
            have hs : (run w "bash" input).1
                = "Error: " ++ w.bashErr ((input.get "command").asStr.getD "") := by
              simp [run, hb]
            rw [hs]
            exact Or.inr (Or.inr (Or.inr (Or.inl ⟨_, rfl⟩)))
        · by_cases h5 : name = "list_dir"
          · subst h5
            cases hd : w.dirs ((input.get "path").asStr.getD ".") with
            | some es =>
              have hs : (run w "list_dir" input).1 = fmtEntries es := by
                simp [run, hd]
              rw [hs]
              exact Or.inr (Or.inr (Or.inr (Or.inr (Or.inr (Or.inr
                ⟨_, es, hd, rfl⟩)))))
            | none =>
              have hs : (run w "list_dir" input).1
                  = "Error: " ++ w.dirErr ((input.get "path").asStr.getD ".") := by
                simp [run, hd]
              rw [hs]
              exact Or.inr (Or.inr (Or.inr (Or.inl ⟨_, rfl⟩)))
          · have hs : (run w name input).1 = "Unknown tool" := by
              simp [run, h1, h2, h3, h4, h5]
            rw [hs]
            exact Or.inl rfl

/-- Helper for C1: on a block list whose `tool_use` blocks all carry a name
and an input (as the wire protocol guarantees for decoded invocations),
`execResults` succeeds and returns results whose ids are exactly the ids of
the `tool_use` blocks, in block order. -/
theorem execResults_wf (bs : List Block) (w : World)
    (hwf : ∀ b ∈ bs, b.type = "tool_use" → b.name.isSome ∧ b.input.isSome) :
    ∃ rs w', execResults w bs = some (rs, w') ∧
      rs.map (fun r => r.tool_use_id)
        = (bs.filter (fun b => b.type == "tool_use")).map (fun b => b.id) := by
  induction bs generalizing w with
  | nil => exact ⟨[], w, rfl, rfl⟩
  | cons b rest ih =>
    have htail : ∀ b' ∈ rest, b'.type = "tool_use" →
        b'.name.isSome ∧ b'.input.isSome :=
      fun b' hb' => hwf b' (List.mem_cons_of_mem _ hb')
    by_cases hb : b.type = "tool_use"
    · obtain ⟨hn, hi⟩ := hwf b (List.mem_cons_self _ _) hb
      obtain ⟨n, hn'⟩ := Option.isSome_iff_exists.mp hn
      obtain ⟨inp, hi'⟩ := Option.isSome_iff_exists.mp hi
      obtain ⟨rs, w', hex, hmap⟩ := ih (run w n inp).2 htail
      refine ⟨⟨b.id, (run w n inp).1⟩ :: rs, w', ?_, ?_⟩
      · simp [execResults, hb, hn', hi', hex]
      · simp [List.filter_cons, hb, hmap]
    · have hb2 : (b.type == "tool_use") = false := by simp [hb]
      obtain ⟨rs, w', hex, hmap⟩ := ih w htail
      refine ⟨rs, w', ?_, ?_⟩
      · simpa [execResults, hb2] using hex
      · simp [List.filter_cons, hb2, hmap]

/-- C1: on a `tool_use` response whose invocation blocks are well-formed,
the loop executes exactly one `ToolResult` per `tool_invocation` block — the
result list has the same length as the list of `tool_use` blocks and carries
each block's `id` through unchanged, in block order — and appends them as
one synthetic user turn right after the assistant turn, before the next
request (the recursion on the remaining script) is issued. -/
theorem agent_loop_one_result_per_invocation
    (w : World) (msgs : List Message) (res : Response)
    (rest : List (Except String Response))
    (hstop : res.stop_reason = "tool_use")
    (hwf : ∀ b ∈ res.content, b.type = "tool_use" →
      b.name.isSome ∧ b.input.isSome) :
    ∃ rs w1, execResults w res.content = some (rs, w1) ∧
      agentLoop w msgs (.ok res :: rest) =
        agentLoop w1
          (msgs ++ [⟨"assistant", Content.blocks res.content⟩,
                    ⟨"user", Content.results rs⟩]) rest ∧
      rs.length = (res.content.filter (fun b => b.type == "tool_use")).length ∧
      rs.map (fun r => r.tool_use_id)
        = (res.content.filter (fun b => b.type == "tool_use")).map
            (fun b => b.id) := by
  obtain ⟨rs, w1, hex, hmap⟩ := execResults_wf res.content w hwf
  refine ⟨rs, w1, hex, ?_, ?_, hmap⟩
  · simp [agentLoop, hstop, hex]
  · have h := congrArg List.length hmap
    simpa using h

/-- C1 witness at a concrete response with one text and one tool_use
block. -/
theorem agent_loop_one_result_per_invocation_witness :
    (∀ b ∈ [(⟨"text", none, none, none, some "working"⟩ : Block),
            ⟨"tool_use", some "id1", some "nosuch", some JVal.null, none⟩],
      b.type = "tool_use" → b.name.isSome ∧ b.input.isSome) ∧
    ∃ rs w1,
      execResults sampleWorld
          [⟨"text", none, none, none, some "working"⟩,
           ⟨"tool_use", some "id1", some "nosuch", some JVal.null, none⟩]
        = some (rs, w1) ∧
      agentLoop sampleWorld []
          (.ok ⟨[⟨"text", none, none, none, some "working"⟩,
                 ⟨"tool_use", some "id1", some "nosuch", some JVal.null, none⟩],
                "tool_use"⟩ :: []) =
        agentLoop w1
          ([] ++ [⟨"assistant", Content.blocks
              [⟨"text", none, none, none, some "working"⟩,
               ⟨"tool_use", some "id1", some "nosuch", some JVal.null, none⟩]⟩,
            ⟨"user", Content.results rs⟩]) [] ∧
      rs.length = (([(⟨"text", none, none, none, some "working"⟩ : Block),
          ⟨"tool_use", some "id1", some "nosuch", some JVal.null,
            none⟩]).filter (fun b => b.type == "tool_use")).length ∧
      rs.map (fun r => r.tool_use_id)
        = (([(⟨"text", none, none, none, some "working"⟩ : Block),
            ⟨"tool_use", some "id1", some "nosuch", some JVal.null,
              none⟩]).filter (fun b => b.type == "tool_use")).map
            (fun b => b.id) := by
  have hwf : ∀ b ∈ [(⟨"text", none, none, none, some "working"⟩ : Block),
      ⟨"tool_use", some "id1", some "nosuch", some JVal.null, none⟩],
      b.type = "tool_use" → b.name.isSome ∧ b.input.isSome := by
    intro b hb
    rcases List.mem_cons.mp hb with rfl | hb
    · intro h
      exact absurd h (by decide)
    · rcases List.mem_cons.mp hb with rfl | hb
      · intro _
        exact ⟨rfl, rfl⟩
      · cases hb
  exact ⟨hwf,
    agent_loop_one_result_per_invocation sampleWorld []
      ⟨[⟨"text", none, none, none, some "working"⟩,
        ⟨"tool_use", some "id1", some "nosuch", some JVal.null, none⟩],
       "tool_use"⟩ [] rfl hwf⟩

/-- C5: the stop-reason dispatch of the loop: a stop_reason other than
`tool_use` terminates the loop at once with the concatenation, in block
order, of the text of every text block of that response (tool_invocation
blocks contributing nothing), the assistant turn still appended, the world
— including the ghost invocation trace — untouched, the remaining script
never consulted; stop_reason `tool_use` instead goes on to execute the
response's tool invocations. -/
theorem stop_reason_dispatch
    (w : World) (msgs : List Message) (res : Response)
    (rest : List (Except String Response)) :
    (res.stop_reason ≠ "tool_use" →
      agentLoop w msgs (.ok res :: rest) =
        .done (finalText res.content)
          (msgs ++ [⟨"assistant", Content.blocks res.content⟩]) w) ∧
    (res.stop_reason = "tool_use" →
      agentLoop w msgs (.ok res :: rest) =
        match execResults w res.content with
        | some (rs, w1) =>
            agentLoop w1
              (msgs ++ [⟨"assistant", Content.blocks res.content⟩,
                        ⟨"user", Content.results rs⟩]) rest
        | none =>
            .panicked (msgs ++ [⟨"assistant", Content.blocks res.content⟩]) w) := by
  constructor
  · intro h
    simp only [agentLoop]
    rw [if_neg h]
  · intro h
    simp only [agentLoop]
    rw [if_pos h]
    rcases hex : execResults w res.content with _ | ⟨rs, w1⟩
    · simp [hex]
    · simp [hex]

/-- C5 witness: a single-text-block `end_turn` response terminates at once
with that text and an untouched world. -/
theorem stop_reason_dispatch_witness :
    (("end_turn" : String) ≠ "tool_use") ∧
    agentLoop sampleWorld []
        (.ok ⟨[⟨"text", none, none, none, some "hi"⟩], "end_turn"⟩ :: []) =
      .done "hi"
        [⟨"assistant", Content.blocks [⟨"text", none, none, none, some "hi"⟩]⟩]
        sampleWorld := by
  refine ⟨by decide, ?_⟩
  have h := (stop_reason_dispatch sampleWorld []
      ⟨[⟨"text", none, none, none, some "hi"⟩], "end_turn"⟩ []).1 (by decide)
  have hft : finalText [⟨"text", none, none, none, some "hi"⟩] = "hi" := rfl
  rw [hft] at h
  simpa using h

/-- C6: a transport or decode failure on the very first request terminates
the agent in the failed state carrying that error, with the transcript still
the single initial user prompt, the rest of the script (no retry) never
consulted, and the world — including the ghost invocation trace — untouched,
so no tool was ever invoked. -/
theorem first_request_transport_failure
    (w : World) (prompt e : String) (rest : List (Except String Response)) :
    agent w prompt (.error e :: rest)
      = .failed e [⟨"user", Content.text prompt⟩] w := rfl

/-- C7: a tool name outside the five registered ones makes the executor
return the fixed `Unknown tool` string as that invocation's result (the only
world change being the ghost trace entry), and the loop appends it like any
result and continues with the next script entry instead of aborting. -/
theorem unknown_tool_fixed_result_and_loop_continues
    (w : World) (msgs : List Message) (rest : List (Except String Response))
    (name : String) (idv : Option String) (inp : JVal)
    (hname : name ∉ (["read_file", "write_file", "edit_file", "bash",
      "list_dir"] : List String)) :
    run w name inp = ("Unknown tool", w.addCall name) ∧
    agentLoop w msgs
        (.ok ⟨[⟨"tool_use", idv, some name, some inp, none⟩], "tool_use"⟩ :: rest) =
      agentLoop (w.addCall name)
        (msgs ++ [⟨"assistant",
            Content.blocks [⟨"tool_use", idv, some name, some inp, none⟩]⟩,
          ⟨"user", Content.results [⟨idv, "Unknown tool"⟩]⟩]) rest := by
  simp only [List.mem_cons, List.mem_singleton, not_or] at hname
  obtain ⟨h1, h2, h3, h4, h5⟩ := hname
  have hrun : run w name inp = ("Unknown tool", w.addCall name) := by
    simp [run, h1, h2, h3, h4, h5]
  refine ⟨hrun, ?_⟩
  simp [agentLoop, execResults, hrun]

/-- C7 witness at the concrete unknown name `frobnicate`. -/
theorem unknown_tool_fixed_result_and_loop_continues_witness :
    (("frobnicate" : String) ∉ (["read_file", "write_file", "edit_file", "bash",
        "list_dir"] : List String)) ∧
    (run sampleWorld "frobnicate" JVal.null
        = ("Unknown tool", sampleWorld.addCall "frobnicate") ∧
     agentLoop sampleWorld []
         (.ok ⟨[⟨"tool_use", some "id9", some "frobnicate", some JVal.null,
             none⟩], "tool_use"⟩ :: []) =
       agentLoop (sampleWorld.addCall "frobnicate")
         ([] ++ [⟨"assistant", Content.blocks [⟨"tool_use", some "id9",
              some "frobnicate", some JVal.null, none⟩]⟩,
            ⟨"user", Content.results [⟨some "id9", "Unknown tool"⟩]⟩]) []) :=
  ⟨by decide,
   unknown_tool_fixed_result_and_loop_continues sampleWorld [] []
     "frobnicate" (some "id9") JVal.null (by decide)⟩

end NanoOpencode
